import Mathlib

/-!
StyloMIDI — verification of the pitch-stabilization core.

Shallow embedding of the StyloMIDI repository's core processing code:

* `src/audio_processor.py` — `AudioProcessor` (sliding-window majority-vote
  stability filter and frequency quantization),
* `src/midi_mode.py` / `src/keyboard_mode.py` — the per-block event-dispatch
  loop `process_audio` (both loops share the identical decision structure),
* `src/keyboard_emulator.py` — `KeyboardEmulator` (note-name parsing, mapping
  load, key press/release discipline).

Python machine floats for amplitude/frequency are modelled as `ℚ` where only
order comparisons matter, and as `ℝ` where `log2` is involved; Python `int`s
are `ℤ`.
-/

namespace StyloMidi

/-! The definitions: the data model and the operations of the program. -/

/-- One processed audio block, as seen by `AudioProcessor.process_audio_buffer`
after the external pitch detector ran: `freq` is the detector's frequency
estimate in Hz, `amplitude` the mean squared sample value
(`np.sum(samples**2) / len(samples)`), and `note` the integer
`freq_to_midi(freq)` for this block.  The quantized note is carried as data
because everything from the silence gate onward depends on the frequency only
through this integer (and under the gate `freq > 20` the conversion never
returns `None`; the subsequent `int(round(note))` on an `int` is the
identity). -/
structure Block where
  amplitude : ℚ
  freq : ℚ
  note : ℤ
deriving DecidableEq

/-- State of `AudioProcessor` (audio_processor.py lines 18–21):
`note_history` is the `collections.deque(maxlen=10)` (oldest element first),
`required_stability` the stability threshold (default 5), and
`current_note` / `current_stable_note` the two note registers.
(`current_note` is written only by `reset`; processing never reads it.) -/
structure AudioProcessor where
  note_history : List ℤ
  required_stability : ℤ
  current_note : Option ℤ
  current_stable_note : Option ℤ
deriving DecidableEq

/-- `AudioProcessor.__init__` with the given `stability_threshold`
(default call sites use 5); the deque starts empty, both note registers
`None`. -/
def AudioProcessor.init (stability_threshold : ℤ) : AudioProcessor :=
  ⟨[], stability_threshold, none, none⟩

/-- `deque.append` with `maxlen=10`: when the deque is full the oldest
(leftmost) element is discarded. -/
def append_maxlen10 (h : List ℤ) (n : ℤ) : List ℤ :=
  if h.length < 10 then h ++ [n] else h.drop 1 ++ [n]

/-- Helper for `firstOccurrences`: keep the elements of the list not yet seen,
first occurrences only. -/
def firstOccurrencesAux : List ℤ → List ℤ → List ℤ
  | [], _ => []
  | x :: xs, seen =>
    if x ∈ seen then firstOccurrencesAux xs seen
    else x :: firstOccurrencesAux xs (x :: seen)

/-- The distinct elements of `h` in order of first occurrence — the key order
of `collections.Counter(h)` (Python dicts keep insertion order). -/
def firstOccurrences (h : List ℤ) : List ℤ :=
  firstOccurrencesAux h []

/-- `collections.Counter(h).most_common(1)[0]`: the element of `h` with the
highest multiplicity together with that multiplicity; ties are broken in
favour of the earliest first occurrence in `h` (Counter keys are in insertion
order and `heapq.nlargest`/`max` keep the first maximal item).  Evaluates to
`(0, 0)` on the empty list, where Python would raise `IndexError`; the caller
only ever applies it to a freshly-appended, hence nonempty, history. -/
def most_common1 (h : List ℤ) : ℤ × ℕ :=
  match firstOccurrences h with
  | [] => (0, 0)
  | c :: cs =>
    cs.foldl (fun best x => if h.count x > best.2 then (x, h.count x) else best)
      (c, h.count c)

/-- The result dict built by `process_audio_buffer` (audio_processor.py
lines 54–60). -/
structure Result where
  is_valid : Bool
  midi_note : Option ℤ
  is_new_note : Bool
  freq : ℚ
  amplitude : ℚ
deriving DecidableEq

/-- The silence gate of audio_processor.py line 63:
`amplitude > 0.001 and freq > 20` (the threshold `0.001` is written
`mkRat 1 1000`, the same rational, so that the gate evaluates by kernel
reduction). -/
def valid_signal (b : Block) : Prop :=
  b.amplitude > mkRat 1 1000 ∧ b.freq > 20

instance (b : Block) : Decidable (valid_signal b) := by
  unfold valid_signal; infer_instance

/-- `AudioProcessor.process_audio_buffer` (audio_processor.py lines 32–91),
one block: gate on amplitude/frequency; on a valid signal append the quantized
note to the history and, once the history length and the most common note's
count both reach `required_stability`, declare that note stable, flagging
`is_new_note` exactly when it differs from `current_stable_note`; on an
invalid signal clear the history and `current_stable_note`. -/
def AudioProcessor.process_audio_buffer (ap : AudioProcessor) (b : Block) :
    AudioProcessor × Result :=
  let result0 : Result := ⟨false, none, false, b.freq, b.amplitude⟩
  if valid_signal b then
    let history := append_maxlen10 ap.note_history b.note
    if (history.length : ℤ) ≥ ap.required_stability then
      let mc := most_common1 history
      if (mc.2 : ℤ) ≥ ap.required_stability then
        if some mc.1 ≠ ap.current_stable_note then
          ({ ap with note_history := history, current_stable_note := some mc.1 },
            { result0 with
              is_valid := true
              midi_note := some mc.1
              is_new_note := true })
        else
          ({ ap with note_history := history },
            { result0 with is_valid := true, midi_note := some mc.1 })
      else ({ ap with note_history := history }, result0)
    else ({ ap with note_history := history }, result0)
  else
    ({ ap with note_history := [], current_stable_note := none }, result0)

/-- `AudioProcessor.set_stability` (lines 93–95): stores the value with no
validation. -/
def AudioProcessor.set_stability (ap : AudioProcessor) (value : ℤ) :
    AudioProcessor :=
  { ap with required_stability := value }

/-- `AudioProcessor.reset` (lines 97–101). -/
def AudioProcessor.reset (ap : AudioProcessor) : AudioProcessor :=
  { ap with note_history := [], current_note := none, current_stable_note := none }

/-- Contract-level events dispatched by the per-block loop to the note sink
(spec §4.4 vocabulary): `onNoteChanged`/`onNoteOff`.  In midi_mode.py a
`noteChanged` dispatch is implemented by the sink as a raw MIDI note-off for
the previous note followed by a note-on for the new one; in keyboard_mode.py
by `press_key`. -/
inductive Event where
  | noteChanged (note : ℤ)
  | noteOff
deriving DecidableEq

/-- The loop-side state of `MidiModeWindow.process_audio` (and identically
`KeyboardModeWindow.process_audio`): the processor plus the window's own
`self.current_note`. -/
structure MidiModeWindow where
  audio_processor : AudioProcessor
  current_note : Option ℤ
deriving DecidableEq

/-- One iteration of the `process_audio` loop body (midi_mode.py lines
262–290, keyboard_mode.py lines 427–456): run the buffer through the
processor; if the result is valid and flags a new note, dispatch
`noteChanged` and record the note; `elif` the result is invalid and a note is
currently on, dispatch `noteOff` and clear it. -/
def MidiModeWindow.process_audio_step (w : MidiModeWindow) (b : Block) :
    MidiModeWindow × List Event :=
  let pr := w.audio_processor.process_audio_buffer b
  if pr.2.is_valid = true ∧ pr.2.midi_note ≠ none then
    match pr.2.midi_note with
    | some n =>
      if pr.2.is_new_note then
        (⟨pr.1, some n⟩, [.noteChanged n])
      else (⟨pr.1, w.current_note⟩, [])
    | none => (⟨pr.1, w.current_note⟩, [])
  else if pr.2.is_valid = false ∧ w.current_note ≠ none then
    (⟨pr.1, none⟩, [.noteOff])
  else (⟨pr.1, w.current_note⟩, [])

/-- Run the loop over a list of blocks, collecting the events of each block
separately (in order). -/
def MidiModeWindow.run : MidiModeWindow → List Block → MidiModeWindow × List (List Event)
  | w, [] => (w, [])
  | w, b :: bs =>
    let step := w.process_audio_step b
    let rest := step.1.run bs
    (rest.1, step.2 :: rest.2)

/-- A session start state: processor reset, no note on (midi_mode.py lines
211–213), with the given stability setting. -/
def sessionStart (stability : ℤ) : MidiModeWindow :=
  ⟨AudioProcessor.init stability, none⟩

/-- Fixture: a gate-passing block quantizing to `n`. -/
def nblock (n : ℤ) : Block := ⟨1, 440, n⟩

/-- Fixture: a silent block (fails the amplitude and frequency gates). -/
def sblock : Block := ⟨0, 0, 0⟩

/-- A run exercising loop/filter desynchronization: five blocks at note 60
declare a stable note, then six distinct-note blocks dilute the window until
the majority count falls below the threshold while the signal stays
non-silent. -/
def jitterBlocks : List Block :=
  List.replicate 5 (nblock 60) ++
    [nblock 61, nblock 62, nblock 63, nblock 64, nblock 65, nblock 66]

/-- The stability slider of both mode windows (midi_mode.py lines 102–104,
keyboard_mode.py lines 170–172): `setMinimum(1)`, `setMaximum(20)`; a Qt
slider clamps any requested value into its [minimum, maximum] range, and
`valueChanged` feeds the value straight into `set_stability`. -/
def stability_slider_setValue (v : ℤ) : ℤ := max 1 (min 20 v)

/-- The loop state after `j` agreeing blocks at note `n` from a fresh session
with stability threshold `r ∈ [1, 10]`: below the threshold the window just
accumulates; from block `r` on, `n` is declared stable and the window is
capped at 10. -/
def steadyState (r n : ℤ) (j : ℕ) : MidiModeWindow :=
  if (j : ℤ) < r then ⟨⟨List.replicate j n, r, none, none⟩, none⟩
  else ⟨⟨List.replicate (min j 10) n, r, none, some n⟩, some n⟩

/-- Alternating fixture for the C6 witness: eight blocks alternating between
notes 60 and 61 (counts stay at 4 and 4, below the default threshold 5). -/
def altBlocks : List Block :=
  [nblock 60, nblock 61, nblock 60, nblock 61, nblock 60, nblock 61,
    nblock 60, nblock 61]

/-- Python `str.strip()`: remove whitespace from both ends. -/
def pyStrip (s : String) : String :=
  ⟨((s.toList.dropWhile Char.isWhitespace).reverse.dropWhile
      Char.isWhitespace).reverse⟩

/-- Value of a nonempty all-digit character list (base 10). -/
def digitsVal (cs : List Char) : Option ℕ :=
  if cs ≠ [] ∧ cs.all Char.isDigit then
    some (cs.foldl (fun acc c => 10 * acc + (c.toNat - '0'.toNat)) 0)
  else none

/-- Python `int(...)` applied to a string (as in `int(note_name[2:])`):
optional surrounding whitespace, an optional sign, then decimal digits;
anything else raises `ValueError`, modelled as `none`.  (Python also accepts
underscore digit separators and non-ASCII decimal digits; those inputs never
occur in note names and are not modelled.) -/
def pyInt (s : String) : Option ℤ :=
  match (pyStrip s).toList with
  | '-' :: rest => (digitsVal rest).map (fun v => -(v : ℤ))
  | '+' :: rest => (digitsVal rest).map (fun v => (v : ℤ))
  | cs => (digitsVal cs).map (fun v => (v : ℤ))

/-- The note-name table of `note_name_to_midi` (keyboard_emulator.py lines
63–65). -/
def notes_table (s : String) : Option ℤ :=
  match s with
  | "C" => some 0
  | "C#" => some 1
  | "Db" => some 1
  | "D" => some 2
  | "D#" => some 3
  | "Eb" => some 3
  | "E" => some 4
  | "F" => some 5
  | "F#" => some 6
  | "Gb" => some 6
  | "G" => some 7
  | "G#" => some 8
  | "Ab" => some 8
  | "A" => some 9
  | "A#" => some 10
  | "Bb" => some 10
  | "B" => some 11
  | _ => none

/-- `KeyboardEmulator.note_name_to_midi` (lines 52–88): names shorter than 2
characters are invalid; with at least 3 characters and a `#`/`b` in second
position the note part is the first two characters and the octave the rest,
otherwise the note part is the first character and the octave starts at the
second; result is `notes[note] + (octave + 1) * 12`. -/
def note_name_to_midi (note_name : String) : Option ℤ :=
  match note_name.toList with
  | c0 :: c1 :: c2 :: rest =>
    if c1 = '#' ∨ c1 = 'b' then
      match notes_table ⟨[c0, c1]⟩, pyInt ⟨c2 :: rest⟩ with
      | some pc, some oct => some (pc + (oct + 1) * 12)
      | _, _ => none
    else
      match notes_table ⟨[c0]⟩, pyInt ⟨c1 :: c2 :: rest⟩ with
      | some pc, some oct => some (pc + (oct + 1) * 12)
      | _, _ => none
  | [c0, c1] =>
    match notes_table ⟨[c0]⟩, pyInt ⟨[c1]⟩ with
    | some pc, some oct => some (pc + (oct + 1) * 12)
    | _, _ => none
  | _ => none

/-- Python dict assignment `self.note_to_key_map[midi_note] = key` on an
insertion-ordered association list. -/
def dict_insert (m : List (ℤ × String)) (k : ℤ) (v : String) :
    List (ℤ × String) :=
  if m.any (fun p => p.1 == k) then
    m.map (fun p => if p.1 = k then (k, v) else p)
  else m ++ [(k, v)]

/-- Python dict membership test plus subscript. -/
def dict_lookup (m : List (ℤ × String)) (k : ℤ) : Option String :=
  (m.find? (fun p => p.1 == k)).map Prod.snd

/-- `KeyboardEmulator.load_mapping` (lines 24–50), modelled on the list of
already-split CSV rows (the `csv.reader` output; file access and comma
splitting are external collaborators): a row with at least two cells has both
cells stripped and the note name parsed; a row whose note name fails to parse
contributes nothing; a shorter row is skipped; no failure propagates. -/
def load_mapping (rows : List (List String)) : List (ℤ × String) :=
  rows.foldl
    (fun m row =>
      match row with
      | c0 :: c1 :: _ =>
        match note_name_to_midi (pyStrip c0) with
        | some midi => dict_insert m midi (pyStrip c1)
        | none => m
      | _ => m)
    []

/-- Events issued to the OS keyboard hook (`keyboard.press`,
`keyboard.release`). -/
inductive KeyEvent where
  | press (key : String)
  | release (key : String)
deriving DecidableEq

/-- State of `KeyboardEmulator` (lines 11–22): backend availability, the
currently held key, and the note→key mapping. -/
structure KeyboardEmulator where
  available : Bool
  current_key : Option String
  note_to_key_map : List (ℤ × String)
deriving DecidableEq

/-- `KeyboardEmulator.press_key` (lines 90–114): no-op returning `False` when
the backend is missing or the note unmapped; otherwise release the held key
if it differs, press the new key if it differs, record it, return `True`.
Returns the updated emulator, the OS key events in issue order, and the
Python return value. -/
def KeyboardEmulator.press_key (e : KeyboardEmulator) (midi_note : ℤ) :
    KeyboardEmulator × List KeyEvent × Bool :=
  match e.available, dict_lookup e.note_to_key_map midi_note with
  | true, some key =>
    let rel : List KeyEvent :=
      match e.current_key with
      | some ck => if ck ≠ key then [KeyEvent.release ck] else []
      | none => []
    if some key ≠ e.current_key then
      ({ e with current_key := some key }, rel ++ [KeyEvent.press key], true)
    else (e, rel, true)
  | _, _ => (e, [], false)

/-- `KeyboardEmulator.release_key` (lines 116–122). -/
def KeyboardEmulator.release_key (e : KeyboardEmulator) :
    KeyboardEmulator × List KeyEvent :=
  match e.available, e.current_key with
  | true, some ck => ({ e with current_key := none }, [KeyEvent.release ck])
  | _, _ => (e, [])

/-- OS-level set of held keys, as affected by press/release events. -/
def os_apply (pressed : List String) : KeyEvent → List String
  | KeyEvent.press k => if k ∈ pressed then pressed else pressed ++ [k]
  | KeyEvent.release k => pressed.filter (fun x => x != k)

/-- Apply a batch of key events in order. -/
def os_apply_all (pressed : List String) (evs : List KeyEvent) : List String :=
  evs.foldl os_apply pressed

/-- The calls the audio loop makes on the emulator. -/
inductive KbCall where
  | pressCall (midi_note : ℤ)
  | releaseCall
deriving DecidableEq

/-- Run a sequence of emulator calls, tracking the OS held-key set. -/
def run_calls : KeyboardEmulator × List String → List KbCall →
    KeyboardEmulator × List String
  | st, [] => st
  | st, KbCall.pressCall m :: rest =>
    run_calls ((st.1.press_key m).1,
      os_apply_all st.2 (st.1.press_key m).2.1) rest
  | st, KbCall.releaseCall :: rest =>
    run_calls (st.1.release_key.1, os_apply_all st.2 st.1.release_key.2) rest

/-- The canonical OS held-key set determined by the emulator's register. -/
def held (e : KeyboardEmulator) : List String :=
  match e.current_key with
  | some k => [k]
  | none => []

/-- Python `int(x)` applied to a float: truncation toward zero. -/
noncomputable def float_int (x : ℝ) : ℤ := if 0 ≤ x then ⌊x⌋ else ⌈x⌉

/-- `AudioProcessor.freq_to_midi` (audio_processor.py lines 103–108):
`None` for zero frequency, else `int(69 + 12 * np.log2(freq / 440.0))` —
note the `int(...)` truncation, not rounding.  (The caller's subsequent
`int(round(note))` at line 67 is the identity on this integer.)  Real-valued
model of the float computation. -/
noncomputable def AudioProcessor.freq_to_midi (freq : ℝ) : Option ℤ :=
  if freq = 0 then none
  else some (float_int (69 + 12 * Real.logb 2 (freq / 440)))

/-- Modelled from the spec (§4.1 NoteQuantizer contract, for comparison with
the code): `quantize(frequencyHz) = round(69 + 12 * log2(frequencyHz / 440))`,
rounding to the nearest integer. -/
noncomputable def quantize_spec (freq : ℝ) : ℤ :=
  round (69 + 12 * Real.logb 2 (freq / 440))

/-! The theorems: helper lemmas followed by the claim theorems, their
witnesses and counterexamples. -/

/-- Unfolding `run` on a cons cell. -/
theorem run_cons (w : MidiModeWindow) (b : Block) (bs : List Block) :
    w.run (b :: bs) =
      (((w.process_audio_step b).1.run bs).1,
        (w.process_audio_step b).2 :: ((w.process_audio_step b).1.run bs).2) :=
  rfl

/-- Branch equation: the silence branch of `process_audio_buffer`. -/
theorem pab_silence (ap : AudioProcessor) (b : Block) (h : ¬ valid_signal b) :
    ap.process_audio_buffer b =
      ({ ap with note_history := [], current_stable_note := none },
        ⟨false, none, false, b.freq, b.amplitude⟩) := by
  simp [AudioProcessor.process_audio_buffer, h]

/-- Branch equation: valid signal but the history is still shorter than the
stability threshold. -/
theorem pab_short (ap : AudioProcessor) (b : Block) (hg : valid_signal b)
    (hl : ¬ ((append_maxlen10 ap.note_history b.note).length : ℤ) ≥
      ap.required_stability) :
    ap.process_audio_buffer b =
      ({ ap with note_history := append_maxlen10 ap.note_history b.note },
        ⟨false, none, false, b.freq, b.amplitude⟩) := by
  simp only [AudioProcessor.process_audio_buffer, if_pos hg, if_neg hl]

/-- Branch equation: valid signal, long enough history, but the majority count
is below the stability threshold. -/
theorem pab_unstable (ap : AudioProcessor) (b : Block) (hg : valid_signal b)
    (hl : ((append_maxlen10 ap.note_history b.note).length : ℤ) ≥
      ap.required_stability)
    (hc : ¬ ((most_common1 (append_maxlen10 ap.note_history b.note)).2 : ℤ) ≥
      ap.required_stability) :
    ap.process_audio_buffer b =
      ({ ap with note_history := append_maxlen10 ap.note_history b.note },
        ⟨false, none, false, b.freq, b.amplitude⟩) := by
  simp only [AudioProcessor.process_audio_buffer, if_pos hg, if_pos hl, if_neg hc]

/-- Branch equation: a stable majority equal to the current stable note. -/
theorem pab_same (ap : AudioProcessor) (b : Block) (hg : valid_signal b)
    (hl : ((append_maxlen10 ap.note_history b.note).length : ℤ) ≥
      ap.required_stability)
    (hc : ((most_common1 (append_maxlen10 ap.note_history b.note)).2 : ℤ) ≥
      ap.required_stability)
    (hn : some (most_common1 (append_maxlen10 ap.note_history b.note)).1 =
      ap.current_stable_note) :
    ap.process_audio_buffer b =
      ({ ap with note_history := append_maxlen10 ap.note_history b.note },
        ⟨true, some (most_common1 (append_maxlen10 ap.note_history b.note)).1,
          false, b.freq, b.amplitude⟩) := by
  simp only [AudioProcessor.process_audio_buffer, if_pos hg, if_pos hl, if_pos hc,
    ne_eq, hn, not_true_eq_false, if_neg, ite_false, not_false_eq_true]

/-- Branch equation: a stable majority different from the current stable note
(the `is_new_note` branch). -/
theorem pab_new (ap : AudioProcessor) (b : Block) (hg : valid_signal b)
    (hl : ((append_maxlen10 ap.note_history b.note).length : ℤ) ≥
      ap.required_stability)
    (hc : ((most_common1 (append_maxlen10 ap.note_history b.note)).2 : ℤ) ≥
      ap.required_stability)
    (hn : some (most_common1 (append_maxlen10 ap.note_history b.note)).1 ≠
      ap.current_stable_note) :
    ap.process_audio_buffer b =
      ({ ap with
          note_history := append_maxlen10 ap.note_history b.note
          current_stable_note :=
            some (most_common1 (append_maxlen10 ap.note_history b.note)).1 },
        ⟨true, some (most_common1 (append_maxlen10 ap.note_history b.note)).1,
          true, b.freq, b.amplitude⟩) := by
  simp only [AudioProcessor.process_audio_buffer, if_pos hg, if_pos hl, if_pos hc,
    if_pos hn]

/-- When `process_audio_buffer` flags a new note, the reported note is the
window majority and differs from the previous `current_stable_note`. -/
theorem is_new_note_spec (ap : AudioProcessor) (b : Block)
    (h : (ap.process_audio_buffer b).2.is_new_note = true) :
    (ap.process_audio_buffer b).2.midi_note =
        some (most_common1 (append_maxlen10 ap.note_history b.note)).1 ∧
      some (most_common1 (append_maxlen10 ap.note_history b.note)).1 ≠
        ap.current_stable_note := by
  by_cases hg : valid_signal b
  · by_cases hl : ((append_maxlen10 ap.note_history b.note).length : ℤ) ≥
        ap.required_stability
    · by_cases hc : ((most_common1 (append_maxlen10 ap.note_history b.note)).2 : ℤ) ≥
          ap.required_stability
      · by_cases hn : some (most_common1 (append_maxlen10 ap.note_history b.note)).1 =
            ap.current_stable_note
        · rw [pab_same ap b hg hl hc hn] at h
          simp at h
        · rw [pab_new ap b hg hl hc hn] at h ⊢
          exact ⟨rfl, hn⟩
      · rw [pab_unstable ap b hg hl hc] at h
        simp at h
    · rw [pab_short ap b hg hl] at h
      simp at h
  · rw [pab_silence ap b hg] at h
    simp at h

/-- The events of one loop iteration: nothing, one `noteChanged` (valid result
flagging a new note), or one `noteOff`. -/
theorem step_events_cases (w : MidiModeWindow) (b : Block) :
    (w.process_audio_step b).2 = [] ∨
      (∃ n, (w.process_audio_step b).2 = [Event.noteChanged n] ∧
        (w.audio_processor.process_audio_buffer b).2.is_new_note = true ∧
        (w.audio_processor.process_audio_buffer b).2.midi_note = some n) ∨
      (w.process_audio_step b).2 = [Event.noteOff] := by
  unfold MidiModeWindow.process_audio_step
  rcases hmn : (w.audio_processor.process_audio_buffer b).2.midi_note with _ | n
  · simp only [hmn]
    split_ifs <;> simp_all
  · simp only [hmn]
    rcases hnew : (w.audio_processor.process_audio_buffer b).2.is_new_note
    · split_ifs <;> simp_all
    · split_ifs <;> simp_all

/-- Loop-level branch equation: a valid result flagging a new note dispatches
exactly one `noteChanged` and records the note. -/
theorem step_of_new (w : MidiModeWindow) (b : Block) (ap' : AudioProcessor)
    (m : ℤ)
    (h : w.audio_processor.process_audio_buffer b =
      (ap', ⟨true, some m, true, b.freq, b.amplitude⟩)) :
    w.process_audio_step b = (⟨ap', some m⟩, [Event.noteChanged m]) := by
  unfold MidiModeWindow.process_audio_step
  rw [h]
  simp

/-- Loop-level branch equation: a valid result for an unchanged stable note
dispatches nothing and leaves the loop's note register alone. -/
theorem step_of_valid_same (w : MidiModeWindow) (b : Block)
    (ap' : AudioProcessor) (m : ℤ)
    (h : w.audio_processor.process_audio_buffer b =
      (ap', ⟨true, some m, false, b.freq, b.amplitude⟩)) :
    w.process_audio_step b = (⟨ap', w.current_note⟩, []) := by
  unfold MidiModeWindow.process_audio_step
  rw [h]
  simp

/-- Loop-level branch equation: an invalid result while a note is on
dispatches exactly one `noteOff` and clears the loop's note register. -/
theorem step_of_invalid_off (w : MidiModeWindow) (b : Block)
    (ap' : AudioProcessor) (hc : w.current_note ≠ none)
    (h : w.audio_processor.process_audio_buffer b =
      (ap', ⟨false, none, false, b.freq, b.amplitude⟩)) :
    w.process_audio_step b = (⟨ap', none⟩, [Event.noteOff]) := by
  unfold MidiModeWindow.process_audio_step
  rw [h]
  simp [hc]

/-- Loop-level branch equation: an invalid result with no note on dispatches
nothing. -/
theorem step_of_invalid_quiet (w : MidiModeWindow) (b : Block)
    (ap' : AudioProcessor) (hc : w.current_note = none)
    (h : w.audio_processor.process_audio_buffer b =
      (ap', ⟨false, none, false, b.freq, b.amplitude⟩)) :
    w.process_audio_step b = (⟨ap', none⟩, []) := by
  unfold MidiModeWindow.process_audio_step
  rw [h]
  simp [hc]

/-- C5: for every loop state and every processed block, at most one event
(note changed or note off, never both, never two) is dispatched, and a
`noteChanged` event always carries a note different from the immediately
preceding `current_stable_note`. -/
theorem c5_at_most_one_event (w : MidiModeWindow) (b : Block) :
    (w.process_audio_step b).2.length ≤ 1 ∧
      ∀ n : ℤ, Event.noteChanged n ∈ (w.process_audio_step b).2 →
        w.audio_processor.current_stable_note ≠ some n := by
  constructor
  · rcases step_events_cases w b with h | ⟨n, h, _, _⟩ | h <;> simp [h]
  · intro n hn
    rcases step_events_cases w b with h | ⟨m, h, hnew, hmn⟩ | h
    · simp [h] at hn
    · rw [h] at hn
      simp only [List.mem_singleton, Event.noteChanged.injEq] at hn
      subst hn
      obtain ⟨h1, h2⟩ := is_new_note_spec w.audio_processor b hnew
      rw [hmn] at h1
      obtain rfl : n = (most_common1 (append_maxlen10
          w.audio_processor.note_history b.note)).1 := Option.some.inj h1
      exact fun hs => h2 hs.symm
    · simp [h] at hn

/-- Witness for C5 at a concrete input where a `noteChanged` really fires. -/
theorem c5_at_most_one_event_witness :
    ((⟨⟨[60, 60, 60, 60], 5, none, none⟩, none⟩ :
        MidiModeWindow).process_audio_step (nblock 60)).2.length ≤ 1 ∧
      (⟨[60, 60, 60, 60], 5, none, none⟩ :
        AudioProcessor).current_stable_note ≠ some 60 := by
  constructor
  · exact (c5_at_most_one_event ⟨⟨[60, 60, 60, 60], 5, none, none⟩, none⟩
      (nblock 60)).1
  · exact (c5_at_most_one_event ⟨⟨[60, 60, 60, 60], 5, none, none⟩, none⟩
      (nblock 60)).2 60 (by decide)

/-- C1 counterexample: after five agreeing blocks at note 60 (one
`noteChanged 60` on the fifth block), six gate-passing blocks at six distinct
notes dilute the window until the majority count drops below the threshold;
on the eleventh block — which passes the silence gate (`nblock 66`, amplitude
1 > 0.001 and frequency 440 > 20) — the loop nevertheless dispatches a
`noteOff`.  This refutes "never when the block passes the silence gate". -/
theorem c1_counterexample :
    jitterBlocks.get? 10 = some (nblock 66) ∧
      valid_signal (nblock 66) ∧
      ((sessionStart 5).run jitterBlocks).2 =
        [[], [], [], [], [Event.noteChanged 60], [], [], [], [], [],
          [Event.noteOff]] := by
  refine ⟨by decide, by decide, by decide⟩

/-- C1 amended: the loop dispatches a `noteOff` on a block exactly when a note
was currently on (`current_note ≠ none`) and the processor result for that
block is invalid — which happens when the block is classified as Silence, but
also when it passes the silence gate and no note reaches the
`required_stability` agreement in the window. -/
theorem c1_note_off_iff_invalid (w : MidiModeWindow) (b : Block) :
    Event.noteOff ∈ (w.process_audio_step b).2 ↔
      w.current_note ≠ none ∧
        (w.audio_processor.process_audio_buffer b).2.is_valid = false := by
  unfold MidiModeWindow.process_audio_step
  rcases hmn : (w.audio_processor.process_audio_buffer b).2.midi_note with _ | n <;>
    rcases hv : (w.audio_processor.process_audio_buffer b).2.is_valid <;>
      rcases hc : w.current_note with _ | cn <;>
        rcases hnew : (w.audio_processor.process_audio_buffer b).2.is_new_note <;>
          simp_all

/-- C4 counterexample: a reachable state in which the filter still declares
stable note 60 (`current_stable_note = some 60`) but the loop's own note
register is already off; processing one Silence block then emits zero events,
not the "exactly one note off" the claim demands. -/
theorem c4_counterexample :
    ((sessionStart 5).run jitterBlocks).1.audio_processor.current_stable_note =
        some 60 ∧
      ¬ valid_signal sblock ∧
      (((sessionStart 5).run jitterBlocks).1.process_audio_step sblock).2 = [] := by
  refine ⟨by decide, by decide, by decide⟩

/-- C4 amended: processing a Silence block always clears the window and sets
`current_stable_note` to `None`, and the loop emits exactly one `noteOff` iff
the loop's own `current_note` register (which can lag behind
`current_stable_note`) holds a note. -/
theorem c4_silence_step (w : MidiModeWindow) (b : Block) (h : ¬ valid_signal b) :
    (w.process_audio_step b).1.audio_processor.note_history = [] ∧
      (w.process_audio_step b).1.audio_processor.current_stable_note = none ∧
      (w.process_audio_step b).1.current_note = none ∧
      ((w.process_audio_step b).2 = [Event.noteOff] ↔ w.current_note ≠ none) := by
  unfold MidiModeWindow.process_audio_step
  rw [pab_silence w.audio_processor b h]
  rcases hc : w.current_note with _ | cn <;> simp

/-- Witness for C4's amended statement at a concrete silent block. -/
theorem c4_silence_step_witness :
    ¬ valid_signal sblock ∧
      ((⟨⟨[60, 60, 60, 60, 60], 5, none, some 60⟩, some 60⟩ :
        MidiModeWindow).process_audio_step sblock).2 = [Event.noteOff] := by
  refine ⟨by decide, ?_⟩
  exact (c4_silence_step ⟨⟨[60, 60, 60, 60, 60], 5, none, some 60⟩, some 60⟩
    sblock (by decide)).2.2.2.mpr (by decide)

/-- C10: on a gate-passing block, `process_audio_buffer` never clears
`current_stable_note`: it either leaves it unchanged or sets it to the window
majority; moreover, when the window majority equals the current stable note
the result is not flagged as a new note (so no `noteChanged` event can be
produced); `current_stable_note` becomes `None` only through the silence
branch (`pab_silence`) or `reset`. -/
theorem c10_valid_never_clears (ap : AudioProcessor) (b : Block)
    (h : valid_signal b) :
    ((ap.process_audio_buffer b).1.current_stable_note = none →
        ap.current_stable_note = none) ∧
      ((ap.process_audio_buffer b).1.current_stable_note =
          ap.current_stable_note ∨
        (ap.process_audio_buffer b).1.current_stable_note =
          some (most_common1 (append_maxlen10 ap.note_history b.note)).1) ∧
      (ap.current_stable_note =
          some (most_common1 (append_maxlen10 ap.note_history b.note)).1 →
        (ap.process_audio_buffer b).2.is_new_note = false) ∧
      ap.reset.current_stable_note = none := by
  by_cases hl : ((append_maxlen10 ap.note_history b.note).length : ℤ) ≥
      ap.required_stability
  · by_cases hcc : ((most_common1 (append_maxlen10 ap.note_history b.note)).2 : ℤ) ≥
        ap.required_stability
    · by_cases hn : some (most_common1 (append_maxlen10 ap.note_history b.note)).1 =
          ap.current_stable_note
      · rw [pab_same ap b h hl hcc hn]
        exact ⟨fun hh => hh, Or.inl rfl, fun _ => rfl, rfl⟩
      · rw [pab_new ap b h hl hcc hn]
        exact ⟨fun hh => by simp at hh, Or.inr rfl,
          fun hh => (hn hh.symm).elim, rfl⟩
    · rw [pab_unstable ap b h hl hcc]
      exact ⟨fun hh => hh, Or.inl rfl, fun _ => rfl, rfl⟩
  · rw [pab_short ap b h hl]
    exact ⟨fun hh => hh, Or.inl rfl, fun _ => rfl, rfl⟩

/-- Witness for C10: a window full of 60s whose majority equals the declared
stable note produces `is_new_note = false`. -/
theorem c10_valid_never_clears_witness :
    valid_signal (nblock 60) ∧
      ((⟨[60, 60, 60, 60, 60], 5, none, some 60⟩ :
          AudioProcessor).process_audio_buffer (nblock 60)).2.is_new_note =
        false :=
  ⟨by decide,
    (c10_valid_never_clears (⟨[60, 60, 60, 60, 60], 5, none, some 60⟩ :
      AudioProcessor) (nblock 60) (by decide)).2.2.1 (by decide)⟩

/-- C7 counterexample: the slider accepts 20 — its configured maximum — and
`set_stability` stores it unchanged, so `required_stability` ends at 20,
violating the claimed bound `value ≤ windowCapacity = 10`. -/
theorem c7_counterexample :
    ((AudioProcessor.init 5).set_stability
        (stability_slider_setValue 20)).required_stability = 20 ∧
      ¬ ((AudioProcessor.init 5).set_stability
        (stability_slider_setValue 20)).required_stability ≤ 10 := by
  decide

/-- C7 amended: a value set through the stability slider always lands in
[1, 20] — the sliders' configured range, whose maximum exceeds the window
capacity 10 — and `set_stability` itself stores any integer unvalidated. -/
theorem c7_slider_range (ap : AudioProcessor) (v : ℤ) :
    1 ≤ (ap.set_stability (stability_slider_setValue v)).required_stability ∧
      (ap.set_stability (stability_slider_setValue v)).required_stability ≤ 20 ∧
      (ap.set_stability v).required_stability = v := by
  refine ⟨?_, ?_, rfl⟩
  · exact le_max_left 1 (min 20 v)
  · exact max_le (by norm_num) (min_le_left 20 v)

/-- Appending the replicated note keeps the window a replicate, capped at the
deque capacity 10 (the window length never exceeds 10). -/
theorem append_maxlen10_replicate (n : ℤ) (j : ℕ) (hj10 : j ≤ 10) :
    append_maxlen10 (List.replicate j n) n = List.replicate (min (j+1) 10) n := by
  unfold append_maxlen10
  rcases lt_or_ge j 10 with hj | hj
  · rw [if_pos (by simpa using hj), ← List.replicate_succ' j n]
    congr 1
    omega
  · have hj' : j = 10 := by omega
    subst hj'
    rw [if_neg (by simp), List.drop_replicate]
    have h1 : min (10 + 1) 10 = 9 + 1 := by omega
    rw [h1, List.replicate_succ' 9 n]

/-- `firstOccurrencesAux` on a replicated list whose element was already
seen. -/
theorem firstOccurrencesAux_replicate_mem (n : ℤ) (m : ℕ) (seen : List ℤ)
    (h : n ∈ seen) : firstOccurrencesAux (List.replicate m n) seen = [] := by
  induction m with
  | zero => rfl
  | succ m ih =>
    rw [List.replicate_succ]
    unfold firstOccurrencesAux
    rw [if_pos h]
    exact ih

/-- The majority of an all-`n` window of size `m+1` is `n` with count
`m+1`. -/
theorem most_common1_replicate (n : ℤ) (m : ℕ) :
    most_common1 (List.replicate (m+1) n) = (n, m+1) := by
  unfold most_common1 firstOccurrences
  rw [List.replicate_succ]
  unfold firstOccurrencesAux
  rw [if_neg (by simp)]
  rw [firstOccurrencesAux_replicate_mem n m [n] (by simp)]
  simp only [List.foldl_nil]
  rw [← List.replicate_succ, List.count_replicate_self]

/-- One agreeing block advances `steadyState`, emitting `noteChanged n`
exactly on block `r`. -/
theorem steadyState_step (r n : ℤ) (j : ℕ) (b : Block) (hb : valid_signal b)
    (hbn : b.note = n) (hr1 : 1 ≤ r) (hr10 : r ≤ 10) :
    (steadyState r n j).process_audio_step b =
      (steadyState r n (j+1),
        if ((j : ℤ) + 1 = r) then [Event.noteChanged n] else []) := by
  rcases lt_or_ge (j : ℤ) r with hj | hj
  · -- still accumulating
    have hsj : steadyState r n j = ⟨⟨List.replicate j n, r, none, none⟩, none⟩ :=
      if_pos hj
    have hmin : min (j+1) 10 = j + 1 := by omega
    have happ : append_maxlen10 (List.replicate j n) b.note =
        List.replicate (j+1) n := by
      rw [hbn, append_maxlen10_replicate n j (by omega), hmin]
    rcases eq_or_lt_of_le (show (j : ℤ) + 1 ≤ r by omega) with he | hlt
    · -- threshold reached on this block: new stable note
      have hlen : ((append_maxlen10 (List.replicate j n) b.note).length : ℤ) ≥ r := by
        rw [happ, List.length_replicate]; omega
      have hcnt : ((most_common1 (append_maxlen10 (List.replicate j n) b.note)).2 : ℤ) ≥ r := by
        rw [happ, most_common1_replicate]
        show (((j+1 : ℕ)) : ℤ) ≥ r
        omega
      have hne : some (most_common1 (append_maxlen10 (List.replicate j n) b.note)).1 ≠
          (none : Option ℤ) := by simp
      have hpab : (⟨List.replicate j n, r, none, none⟩ :
          AudioProcessor).process_audio_buffer b =
          (⟨List.replicate (j+1) n, r, none, some n⟩,
            ⟨true, some n, true, b.freq, b.amplitude⟩) := by
        rw [pab_new ⟨List.replicate j n, r, none, none⟩ b hb hlen hcnt hne]
        simp [happ, most_common1_replicate]
      rw [hsj, step_of_new ⟨⟨List.replicate j n, r, none, none⟩, none⟩ b _ n hpab,
        if_pos he]
      unfold steadyState
      rw [if_neg (by omega), hmin]
    · -- still below threshold: no event
      have hlen : ¬ ((append_maxlen10 (List.replicate j n) b.note).length : ℤ) ≥ r := by
        rw [happ, List.length_replicate]; omega
      have hpab : (⟨List.replicate j n, r, none, none⟩ :
          AudioProcessor).process_audio_buffer b =
          (⟨List.replicate (j+1) n, r, none, none⟩,
            ⟨false, none, false, b.freq, b.amplitude⟩) := by
        rw [pab_short ⟨List.replicate j n, r, none, none⟩ b hb hlen]
        simp [happ]
      rw [hsj, step_of_invalid_quiet ⟨⟨List.replicate j n, r, none, none⟩, none⟩
        b _ rfl hpab, if_neg (by omega)]
      unfold steadyState
      rw [if_pos (by omega)]
  · -- already stable: the majority equals the stable note, no event
    have hsj : steadyState r n j =
        ⟨⟨List.replicate (min j 10) n, r, none, some n⟩, some n⟩ :=
      if_neg (by omega)
    have happ : append_maxlen10 (List.replicate (min j 10) n) b.note =
        List.replicate (min (j+1) 10) n := by
      rw [hbn, append_maxlen10_replicate n (min j 10) (by omega)]
      congr 1
      omega
    obtain ⟨m, hm⟩ : ∃ m, min (j+1) 10 = m + 1 := ⟨min (j+1) 10 - 1, by omega⟩
    have hmc : most_common1 (append_maxlen10 (List.replicate (min j 10) n) b.note) =
        (n, min (j+1) 10) := by
      rw [happ, hm, most_common1_replicate]
    have hlen : ((append_maxlen10 (List.replicate (min j 10) n) b.note).length : ℤ) ≥ r := by
      rw [happ, List.length_replicate]; omega
    have hcnt : ((most_common1 (append_maxlen10 (List.replicate (min j 10) n) b.note)).2 : ℤ) ≥ r := by
      rw [hmc]
      show ((min (j+1) 10 : ℕ) : ℤ) ≥ r
      omega
    have hsame : some (most_common1 (append_maxlen10 (List.replicate (min j 10) n) b.note)).1 =
        (⟨List.replicate (min j 10) n, r, none, some n⟩ :
          AudioProcessor).current_stable_note := by
      rw [hmc]
    have hpab : (⟨List.replicate (min j 10) n, r, none, some n⟩ :
        AudioProcessor).process_audio_buffer b =
        (⟨List.replicate (min (j+1) 10) n, r, none, some n⟩,
          ⟨true, some n, false, b.freq, b.amplitude⟩) := by
      rw [pab_same ⟨List.replicate (min j 10) n, r, none, some n⟩ b hb hlen hcnt hsame]
      simp [happ, hm, most_common1_replicate]
    rw [hsj, step_of_valid_same ⟨⟨List.replicate (min j 10) n, r, none, some n⟩,
      some n⟩ b _ n hpab, if_neg (by omega)]
    unfold steadyState
    rw [if_neg (by omega)]

/-- Running `m` agreeing blocks from `steadyState j`: the per-block event
lists are empty except on the block where the count first reaches `r`. -/
theorem steadyState_run (r n : ℤ) (b : Block) (hb : valid_signal b)
    (hbn : b.note = n) (hr1 : 1 ≤ r) (hr10 : r ≤ 10) :
    ∀ (m j : ℕ),
      (steadyState r n j).run (List.replicate m b) =
        (steadyState r n (j + m),
          (List.range m).map
            (fun i : ℕ => if ((j : ℤ) + (i : ℤ) + 1 = r)
              then [Event.noteChanged n] else [])) := by
  intro m
  induction m with
  | zero => intro j; simp [MidiModeWindow.run]
  | succ m ih =>
    intro j
    rw [List.replicate_succ, run_cons,
      steadyState_step r n j b hb hbn hr1 hr10, ih (j+1)]
    have hst : j + 1 + m = j + (m + 1) := by omega
    rw [hst]
    refine congrArg₂ Prod.mk rfl ?_
    rw [List.range_succ_eq_map, List.map_cons, List.map_map]
    refine congrArg₂ List.cons
      (if_congr (by push_cast; constructor <;> intro h <;> omega) rfl rfl) ?_
    refine List.map_congr_left (fun i _ => ?_)
    simp only [Function.comp_apply]
    exact if_congr (by push_cast; constructor <;> intro h <;> omega) rfl rfl

/-- Flatten of a one-hot event pattern. -/
theorem flatten_map_range_ite (r k : ℕ) (e : List Event) (hr1 : 1 ≤ r)
    (hrk : r ≤ k) :
    ((List.range k).map (fun i => if i + 1 = r then e else [])).flatten = e := by
  induction k with
  | zero => omega
  | succ k ih =>
    rw [List.range_succ, List.map_append, List.flatten_append]
    simp only [List.map_cons, List.map_nil, List.flatten_cons, List.flatten_nil,
      List.append_nil]
    rcases eq_or_lt_of_le hrk with he | hlt
    · have h0 : ((List.range k).map
          (fun i => if i + 1 = r then e else [])).flatten = [] := by
        rw [List.flatten_eq_nil_iff]
        intro x hx
        obtain ⟨i, hi, hxi⟩ := List.mem_map.mp hx
        have : i + 1 ≠ r := by
          have := List.mem_range.mp hi
          omega
        rw [if_neg this] at hxi
        exact hxi.symm
      rw [h0, if_pos (by omega), List.nil_append]
    · have hk : r ≤ k := by omega
      rw [ih hk, if_neg (by omega), List.append_nil]

/-- C3: from a reset session with stability `r ∈ [1, 10]`, feeding `k ≥ r`
identical gate-passing blocks at note 60 dispatches the events
`noteChanged 60` exactly once, on block `r` (where the count of 60 first
reaches `r`), and nothing on any other block. -/
theorem c3_single_change_event (r k : ℕ) (hr1 : 1 ≤ r) (hr10 : r ≤ 10)
    (hrk : r ≤ k) :
    ((sessionStart (r : ℤ)).run (List.replicate k (nblock 60))).2 =
        (List.range k).map
          (fun i => if i + 1 = r then [Event.noteChanged 60] else []) ∧
      (((sessionStart (r : ℤ)).run (List.replicate k (nblock 60))).2).flatten =
        [Event.noteChanged 60] := by
  have hs0 : sessionStart (r : ℤ) = steadyState (r : ℤ) 60 0 := by
    unfold sessionStart steadyState AudioProcessor.init
    rw [if_pos (by exact_mod_cast hr1)]
    rfl
  have hrun := steadyState_run (r : ℤ) 60 (nblock 60) (by decide) rfl
    (by exact_mod_cast hr1) (by exact_mod_cast hr10) k 0
  have hev : ((sessionStart (r : ℤ)).run (List.replicate k (nblock 60))).2 =
      (List.range k).map
        (fun i => if i + 1 = r then [Event.noteChanged 60] else []) := by
    rw [hs0, hrun]
    refine List.map_congr_left (fun i _ => ?_)
    exact if_congr (by push_cast; constructor <;> intro h <;> omega) rfl rfl
  refine ⟨hev, ?_⟩
  rw [hev]
  exact flatten_map_range_ite r k [Event.noteChanged 60] hr1 hrk

/-- Witness for C3 at the default stability 5 with 7 blocks. -/
theorem c3_single_change_event_witness :
    (((sessionStart ((5 : ℕ) : ℤ)).run
        (List.replicate 7 (nblock 60))).2).flatten = [Event.noteChanged 60] :=
  (c3_single_change_event 5 7 (by norm_num) (by norm_num) (by norm_num)).2

/-- Every element produced by `firstOccurrencesAux` comes from the input
list. -/
theorem mem_of_mem_firstOccurrencesAux :
    ∀ (l seen : List ℤ) (x : ℤ), x ∈ firstOccurrencesAux l seen → x ∈ l := by
  intro l
  induction l with
  | nil => intro seen x hx; exact absurd hx (List.not_mem_nil x)
  | cons a l ih =>
    intro seen x hx
    unfold firstOccurrencesAux at hx
    by_cases ha : a ∈ seen
    · rw [if_pos ha] at hx
      exact List.mem_cons_of_mem a (ih seen x hx)
    · rw [if_neg ha] at hx
      rcases List.mem_cons.mp hx with rfl | hx'
      · exact List.mem_cons_self x l
      · exact List.mem_cons_of_mem a (ih (a :: seen) x hx')

/-- The fold inside `most_common1` returns a pair whose first component is in
`h` and whose second component is its multiplicity in `h`. -/
theorem foldl_best_spec (h : List ℤ) :
    ∀ (cs : List ℤ) (init : ℤ × ℕ), (∀ x ∈ cs, x ∈ h) →
      init.1 ∈ h → init.2 = h.count init.1 →
      ((cs.foldl (fun best x => if h.count x > best.2 then (x, h.count x)
          else best) init).1 ∈ h ∧
        (cs.foldl (fun best x => if h.count x > best.2 then (x, h.count x)
          else best) init).2 =
          h.count (cs.foldl (fun best x => if h.count x > best.2 then
            (x, h.count x) else best) init).1) := by
  intro cs
  induction cs with
  | nil => intro init _ h1 h2; exact ⟨h1, h2⟩
  | cons c cs ih =>
    intro init hcs h1 h2
    simp only [List.foldl_cons]
    by_cases hc : h.count c > init.2
    · rw [if_pos hc]
      exact ih (c, h.count c) (fun x hx => hcs x (List.mem_cons_of_mem c hx))
        (hcs c (List.mem_cons_self c cs)) rfl
    · rw [if_neg hc]
      exact ih init (fun x hx => hcs x (List.mem_cons_of_mem c hx)) h1 h2

/-- On a nonempty list, `most_common1` reports an element of the list together
with its multiplicity. -/
theorem most_common1_spec (h : List ℤ) (hne : h ≠ []) :
    (most_common1 h).1 ∈ h ∧ (most_common1 h).2 = h.count (most_common1 h).1 := by
  unfold most_common1 firstOccurrences
  cases h with
  | nil => exact absurd rfl hne
  | cons a l =>
    have haux : firstOccurrencesAux (a :: l) [] =
        a :: firstOccurrencesAux l [a] := by
      conv_lhs => rw [firstOccurrencesAux]
      rw [if_neg (by simp)]
    rw [haux]
    exact foldl_best_spec (a :: l) (firstOccurrencesAux l [a])
      (a, (a :: l).count a)
      (fun x hx => List.mem_cons_of_mem a
        (mem_of_mem_firstOccurrencesAux l [a] x hx))
      (List.mem_cons_self a l) rfl

/-- Elements of the updated window come from the old window or are the new
note. -/
theorem mem_append_maxlen10 (h : List ℤ) (n x : ℤ)
    (hx : x ∈ append_maxlen10 h n) : x ∈ h ∨ x = n := by
  unfold append_maxlen10 at hx
  by_cases hl : h.length < 10
  · rw [if_pos hl] at hx
    rcases List.mem_append.mp hx with hx' | hx'
    · exact Or.inl hx'
    · exact Or.inr (List.mem_singleton.mp hx')
  · rw [if_neg hl] at hx
    rcases List.mem_append.mp hx with hx' | hx'
    · exact Or.inl (List.mem_of_mem_drop hx')
    · exact Or.inr (List.mem_singleton.mp hx')

/-- The updated window is never empty. -/
theorem append_maxlen10_ne_nil (h : List ℤ) (n : ℤ) :
    append_maxlen10 h n ≠ [] := by
  unfold append_maxlen10
  split <;> simp

/-- On a gate-passing block the processor's window is always the appended
one, whichever stability branch is taken. -/
theorem pab_history_valid (ap : AudioProcessor) (b : Block)
    (hb : valid_signal b) :
    (ap.process_audio_buffer b).1.note_history =
        append_maxlen10 ap.note_history b.note ∧
      (ap.process_audio_buffer b).1.required_stability =
        ap.required_stability := by
  by_cases hl : ((append_maxlen10 ap.note_history b.note).length : ℤ) ≥
      ap.required_stability
  · by_cases hcc : ((most_common1 (append_maxlen10 ap.note_history b.note)).2 : ℤ) ≥
        ap.required_stability
    · by_cases hn : some (most_common1 (append_maxlen10 ap.note_history b.note)).1 =
          ap.current_stable_note
      · rw [pab_same ap b hb hl hcc hn]; exact ⟨rfl, rfl⟩
      · rw [pab_new ap b hb hl hcc hn]; exact ⟨rfl, rfl⟩
    · rw [pab_unstable ap b hb hl hcc]; exact ⟨rfl, rfl⟩
  · rw [pab_short ap b hb hl]; exact ⟨rfl, rfl⟩

/-- In every branch, the loop adopts the processor state returned by
`process_audio_buffer`. -/
theorem step_processor (w : MidiModeWindow) (b : Block) :
    (w.process_audio_step b).1.audio_processor =
      (w.audio_processor.process_audio_buffer b).1 := by
  unfold MidiModeWindow.process_audio_step
  rcases hmn : (w.audio_processor.process_audio_buffer b).2.midi_note with _ | n <;>
    rcases hv : (w.audio_processor.process_audio_buffer b).2.is_valid <;>
      rcases hc : w.current_note with _ | cn <;>
        rcases hnew : (w.audio_processor.process_audio_buffer b).2.is_new_note <;>
          simp_all

/-- One gate-passing block whose updated window gives no note a count
reaching the threshold emits nothing and preserves the quiet invariant. -/
theorem c6_step (r n1 n2 : ℤ) (w : MidiModeWindow) (b : Block)
    (hw1 : w.audio_processor.current_stable_note = none)
    (hw2 : w.current_note = none)
    (hw3 : w.audio_processor.required_stability = r)
    (hwin : ∀ x ∈ w.audio_processor.note_history, x = n1 ∨ x = n2)
    (hb : valid_signal b) (hbn : b.note = n1 ∨ b.note = n2)
    (hcnt : (((append_maxlen10 w.audio_processor.note_history b.note).count n1 : ℕ) : ℤ) < r ∧
      (((append_maxlen10 w.audio_processor.note_history b.note).count n2 : ℕ) : ℤ) < r) :
    (w.process_audio_step b).2 = [] ∧
      (w.process_audio_step b).1.audio_processor.current_stable_note = none ∧
      (w.process_audio_step b).1.current_note = none ∧
      (w.process_audio_step b).1.audio_processor.required_stability = r ∧
      (w.process_audio_step b).1.audio_processor.note_history =
        append_maxlen10 w.audio_processor.note_history b.note := by
  have hne := append_maxlen10_ne_nil w.audio_processor.note_history b.note
  obtain ⟨hmem, hmcount⟩ :=
    most_common1_spec (append_maxlen10 w.audio_processor.note_history b.note) hne
  have hm12 : (most_common1 (append_maxlen10 w.audio_processor.note_history b.note)).1 = n1 ∨
      (most_common1 (append_maxlen10 w.audio_processor.note_history b.note)).1 = n2 := by
    rcases mem_append_maxlen10 _ _ _ hmem with hx | hx
    · exact hwin _ hx
    · rw [hx]; exact hbn
  have hcc : ¬ (((most_common1 (append_maxlen10 w.audio_processor.note_history b.note)).2 : ℤ) ≥
      w.audio_processor.required_stability) := by
    rw [hmcount, hw3]
    rcases hm12 with hx | hx <;> rw [hx] <;> omega
  by_cases hl : ((append_maxlen10 w.audio_processor.note_history b.note).length : ℤ) ≥
      w.audio_processor.required_stability
  · have hpab := pab_unstable w.audio_processor b hb hl hcc
    rw [step_of_invalid_quiet w b _ hw2 hpab]
    exact ⟨rfl, hw1, rfl, hw3, rfl⟩
  · have hpab := pab_short w.audio_processor b hb hl
    rw [step_of_invalid_quiet w b _ hw2 hpab]
    exact ⟨rfl, hw1, rfl, hw3, rfl⟩

/-- Inductive core for C6, generalized over a quiet starting state. -/
theorem c6_jitter_aux (r n1 n2 : ℤ) :
    ∀ (bs : List Block) (w : MidiModeWindow),
      w.audio_processor.current_stable_note = none →
      w.current_note = none →
      w.audio_processor.required_stability = r →
      (∀ x ∈ w.audio_processor.note_history, x = n1 ∨ x = n2) →
      (∀ b ∈ bs, valid_signal b ∧ (b.note = n1 ∨ b.note = n2)) →
      (∀ i, i < bs.length →
        ((((w.run (bs.take (i+1))).1.audio_processor.note_history.count n1 : ℕ) : ℤ) < r ∧
          (((w.run (bs.take (i+1))).1.audio_processor.note_history.count n2 : ℕ) : ℤ) < r)) →
      (∀ evs ∈ (w.run bs).2, evs = []) ∧
        (w.run bs).1.audio_processor.current_stable_note = none := by
  intro bs
  induction bs with
  | nil =>
    intro w h1 _ _ _ _ _
    exact ⟨by simp [MidiModeWindow.run], h1⟩
  | cons b bs ih =>
    intro w h1 h2 h3 hwin hbs hcnt
    obtain ⟨hbv, hbn⟩ := hbs b (List.mem_cons_self b bs)
    -- the window after the first block is the appended one
    have hrun1 : (w.run ((b :: bs).take 1)).1 = (w.process_audio_step b).1 := by
      rw [List.take_succ_cons, List.take_zero, run_cons]
      rfl
    have hhist : (w.process_audio_step b).1.audio_processor.note_history =
        append_maxlen10 w.audio_processor.note_history b.note := by
      rw [step_processor, (pab_history_valid w.audio_processor b hbv).1]
    have hc0 := hcnt 0 (by simp)
    rw [hrun1, hhist] at hc0
    have hstep := c6_step r n1 n2 w b h1 h2 h3 hwin hbv hbn hc0
    have hwin' : ∀ x ∈ (w.process_audio_step b).1.audio_processor.note_history,
        x = n1 ∨ x = n2 := by
      intro x hx
      rw [hstep.2.2.2.2] at hx
      rcases mem_append_maxlen10 _ _ _ hx with hx' | hx'
      · exact hwin _ hx'
      · rw [hx']; exact hbn
    have hcnt' : ∀ i, i < bs.length →
        (((((w.process_audio_step b).1.run (bs.take (i+1))).1.audio_processor.note_history.count n1 : ℕ) : ℤ) < r ∧
          ((((w.process_audio_step b).1.run (bs.take (i+1))).1.audio_processor.note_history.count n2 : ℕ) : ℤ) < r) := by
      intro i hi
      have := hcnt (i+1) (by simp; omega)
      rw [List.take_succ_cons, run_cons] at this
      exact this
    obtain ⟨ihev, ihst⟩ := ih (w.process_audio_step b).1 hstep.2.1 hstep.2.2.1
      hstep.2.2.2.1 hwin' (fun x hx => hbs x (List.mem_cons_of_mem b hx)) hcnt'
    constructor
    · intro evs hevs
      rw [run_cons] at hevs
      rcases List.mem_cons.mp hevs with rfl | hevs'
      · exact hstep.1
      · exact ihev evs hevs'
    · rw [run_cons]
      exact ihst

/-- C6: starting from a reset session, for every sequence of gate-passing
blocks alternating between two notes such that neither note's count in the
window ever reaches `required_stability`, no event is ever emitted and no
stable note is ever declared. -/
theorem c6_jitter_suppression (r n1 n2 : ℤ) (bs : List Block)
    (hbs : ∀ b ∈ bs, valid_signal b ∧ (b.note = n1 ∨ b.note = n2))
    (hcnt : ∀ i, i < bs.length →
      (((((sessionStart r).run (bs.take (i+1))).1.audio_processor.note_history.count n1 : ℕ) : ℤ) < r ∧
        ((((sessionStart r).run (bs.take (i+1))).1.audio_processor.note_history.count n2 : ℕ) : ℤ) < r)) :
    (∀ evs ∈ ((sessionStart r).run bs).2, evs = []) ∧
      ((sessionStart r).run bs).1.audio_processor.current_stable_note = none :=
  c6_jitter_aux r n1 n2 bs (sessionStart r) rfl rfl rfl
    (by intro x hx; exact absurd hx (List.not_mem_nil x)) hbs hcnt

/-- Witness for C6 on the alternating fixture. -/
theorem c6_jitter_suppression_witness :
    (∀ evs ∈ ((sessionStart 5).run altBlocks).2, evs = []) ∧
      ((sessionStart 5).run altBlocks).1.audio_processor.current_stable_note =
        none :=
  c6_jitter_suppression 5 60 61 altBlocks (by decide) (by decide)

/-- C8: `"C4,a"` maps semitone 60 to `"a"` (C=0, (4+1)*12=60); `"F#3,z"` maps
semitone 54 to `"z"` (F#=6, (3+1)*12=48); a single-column row contributes
nothing and raises nothing; the final mapping holds exactly those two
entries. -/
theorem c8_mapping_parse :
    note_name_to_midi "C4" = some 60 ∧
      note_name_to_midi "F#3" = some 54 ∧
      load_mapping [["C4", "a"], ["F#3", "z"], ["bad"]] =
        [(60, "a"), (54, "z")] := by
  refine ⟨by decide, by decide, by decide⟩

/-- A `press_key` call moves the OS held-key set in lockstep with the
emulator's `current_key` register. -/
theorem press_key_held (e : KeyboardEmulator) (m : ℤ) :
    os_apply_all (held e) (e.press_key m).2.1 = held (e.press_key m).1 := by
  unfold KeyboardEmulator.press_key
  rcases ha : e.available with _ | _
  · simp [ha, os_apply_all]
  · rcases hl : dict_lookup e.note_to_key_map m with _ | key
    · simp [ha, hl, os_apply_all]
    · rcases hc : e.current_key with _ | ck
      · simp [ha, hl, hc, held, os_apply_all, os_apply]
      · by_cases hk : ck = key
        · subst hk
          simp [ha, hl, hc, held, os_apply_all]
        · simp [ha, hl, hc, held, os_apply_all, os_apply, hk, Ne.symm hk]

/-- A `release_key` call moves the OS held-key set in lockstep with the
emulator's `current_key` register. -/
theorem release_key_held (e : KeyboardEmulator) :
    os_apply_all (held e) e.release_key.2 = held e.release_key.1 := by
  unfold KeyboardEmulator.release_key
  rcases e.available with _ | _ <;>
    rcases hc : e.current_key with _ | ck <;>
      simp_all [held, os_apply_all, os_apply]

/-- The canonical held-key set never holds more than one key. -/
theorem held_length_le_one (e : KeyboardEmulator) : (held e).length ≤ 1 := by
  unfold held
  rcases hck : e.current_key with _ | k <;> simp [hck]

/-- The lockstep invariant holds along any call sequence. -/
theorem run_calls_held (calls : List KbCall) :
    ∀ (e : KeyboardEmulator),
      (run_calls (e, held e) calls).2 = held (run_calls (e, held e) calls).1 := by
  induction calls with
  | nil => intro e; rfl
  | cons c rest ih =>
    intro e
    cases c with
    | pressCall m =>
      show (run_calls ((e.press_key m).1,
          os_apply_all (held e) (e.press_key m).2.1) rest).2 =
        held (run_calls ((e.press_key m).1,
          os_apply_all (held e) (e.press_key m).2.1) rest).1
      rw [press_key_held e m]
      exact ih (e.press_key m).1
    | releaseCall =>
      show (run_calls (e.release_key.1,
          os_apply_all (held e) e.release_key.2) rest).2 =
        held (run_calls (e.release_key.1,
          os_apply_all (held e) e.release_key.2) rest).1
      rw [release_key_held e]
      exact ih e.release_key.1

/-- C9: starting with no key held, after any sequence of `press_key` /
`release_key` calls at most one OS key is held down; and whenever `press_key`
presses a key different from the currently held one, it releases the held key
first (the event batch is exactly `[release old, press new]`). -/
theorem c9_single_key_held (avail : Bool) (m0 : List (ℤ × String))
    (calls : List KbCall) :
    (run_calls (⟨avail, none, m0⟩, []) calls).2.length ≤ 1 ∧
      ∀ (e : KeyboardEmulator) (n : ℤ) (ck key : String),
        e.available = true → e.current_key = some ck →
        dict_lookup e.note_to_key_map n = some key → key ≠ ck →
        (e.press_key n).2.1 = [KeyEvent.release ck, KeyEvent.press key] := by
  constructor
  · have h0 : ([] : List String) = held ⟨avail, none, m0⟩ := rfl
    rw [h0, run_calls_held calls ⟨avail, none, m0⟩]
    exact held_length_le_one _
  · intro e n ck key ha hc hl hk
    unfold KeyboardEmulator.press_key
    rw [ha, hl, hc]
    simp [Ne.symm hk, hk]

/-- Witness for C9: two mapped presses in a row hold a single key, and the
second press releases `"a"` before pressing `"s"`. -/
theorem c9_single_key_held_witness :
    (run_calls (⟨true, none, [(60, "a"), (62, "s")]⟩, [])
        [KbCall.pressCall 60, KbCall.pressCall 62]).2.length ≤ 1 ∧
      ((⟨true, some "a", [(60, "a"), (62, "s")]⟩ :
          KeyboardEmulator).press_key 62).2.1 =
        [KeyEvent.release "a", KeyEvent.press "s"] :=
  ⟨(c9_single_key_held true [(60, "a"), (62, "s")]
      [KbCall.pressCall 60, KbCall.pressCall 62]).1,
    (c9_single_key_held true [(60, "a"), (62, "s")]
      [KbCall.pressCall 60, KbCall.pressCall 62]).2
      ⟨true, some "a", [(60, "a"), (62, "s")]⟩ 62 "a" "s" rfl rfl
      (by decide) (by decide)⟩

/-- `log2 (21/20)` is below `1/12` (since `(21/20)^12 < 2`). -/
theorem logb_2120_lt : Real.logb 2 ((21 : ℝ)/20) < 1/12 := by
  rw [Real.logb_lt_iff_lt_rpow (by norm_num) (by norm_num)]
  have hpow : ((2:ℝ) ^ ((1:ℝ)/12)) ^ (12:ℕ) = 2 := by
    rw [← Real.rpow_natCast ((2:ℝ) ^ ((1:ℝ)/12)) 12, ← Real.rpow_mul (by norm_num)]
    norm_num
  have h : ((21:ℝ)/20) ^ (12:ℕ) < ((2:ℝ) ^ ((1:ℝ)/12)) ^ (12:ℕ) := by
    rw [hpow]
    norm_num
  exact lt_of_pow_lt_pow_left₀ 12 (le_of_lt (Real.rpow_pos_of_pos (by norm_num) _)) h

/-- `log2 (21/20)` is above `1/24` (since `(21/20)^24 > 2`). -/
theorem lt_logb_2120 : (1:ℝ)/24 < Real.logb 2 ((21 : ℝ)/20) := by
  rw [Real.lt_logb_iff_rpow_lt (by norm_num) (by norm_num)]
  have hpow : ((2:ℝ) ^ ((1:ℝ)/24)) ^ (24:ℕ) = 2 := by
    rw [← Real.rpow_natCast ((2:ℝ) ^ ((1:ℝ)/24)) 24, ← Real.rpow_mul (by norm_num)]
    norm_num
  have h : ((2:ℝ) ^ ((1:ℝ)/24)) ^ (24:ℕ) < ((21:ℝ)/20) ^ (24:ℕ) := by
    rw [hpow]
    norm_num
  exact lt_of_pow_lt_pow_left₀ 24 (by norm_num) h

/-- C2 counterexample: at 462 Hz the exact value `69 + 12 * log2(462/440)`
lies in `(69.5, 70)`, so the code's truncation gives 69 while the spec's
nearest-integer rounding gives 70. -/
theorem c2_counterexample :
    AudioProcessor.freq_to_midi 462 = some 69 ∧ quantize_spec 462 = 70 ∧
      AudioProcessor.freq_to_midi 462 ≠ some (quantize_spec 462) := by
  have h2120 : (462:ℝ)/440 = 21/20 := by norm_num
  have h1 := logb_2120_lt
  have h2 := lt_logb_2120
  have hval1 : (69:ℝ) + 12 * Real.logb 2 ((21:ℝ)/20) < 70 := by linarith
  have hval2 : (139:ℝ)/2 < 69 + 12 * Real.logb 2 ((21:ℝ)/20) := by linarith
  have hfm : AudioProcessor.freq_to_midi 462 = some 69 := by
    unfold AudioProcessor.freq_to_midi float_int
    rw [if_neg (by norm_num), h2120, if_pos (by linarith)]
    congr 1
    rw [Int.floor_eq_iff]
    constructor
    · push_cast; linarith
    · push_cast; linarith
  have hq : quantize_spec 462 = 70 := by
    unfold quantize_spec
    rw [h2120, round_eq, Int.floor_eq_iff]
    constructor
    · push_cast; linarith
    · push_cast; linarith
  exact ⟨hfm, hq, by rw [hfm, hq]; simp⟩

/-- C2 amended: for every frequency above the silence-gate floor of 20 Hz,
the quantizer returns the floor (truncation) of
`69 + 12 * log2(frequencyHz / 440)` — not the nearest integer. -/
theorem c2_freq_to_midi_floor (f : ℝ) (hf : 20 < f) :
    AudioProcessor.freq_to_midi f = some ⌊69 + 12 * Real.logb 2 (f / 440)⌋ := by
  have hfd : (1:ℝ)/32 < f/440 := by
    rw [div_lt_div_iff₀ (by norm_num) (by norm_num)]
    linarith
  have h132 : Real.logb 2 ((1:ℝ)/32) = -5 := by
    rw [show ((1:ℝ)/32) = (2:ℝ) ^ ((-5:ℤ) : ℝ) from by
      rw [Real.rpow_intCast]; norm_num]
    rw [Real.logb_rpow (by norm_num) (by norm_num)]
    norm_num
  have hlog : Real.logb 2 ((1:ℝ)/32) < Real.logb 2 (f/440) :=
    Real.logb_lt_logb (by norm_num) (by norm_num) hfd
  rw [h132] at hlog
  unfold AudioProcessor.freq_to_midi float_int
  rw [if_neg (by linarith), if_pos (by linarith)]

/-- Witness for C2's amended statement: at A4 = 440 Hz the quantizer gives
semitone 69. -/
theorem c2_freq_to_midi_floor_witness :
    AudioProcessor.freq_to_midi 440 = some 69 := by
  have h := c2_freq_to_midi_floor 440 (by norm_num)
  rw [h]
  norm_num [Real.logb_one]

end StyloMidi
